import Mathlib

/-!
Shallow embedding of the offline synchronization engine of `lib/sync.ts`
(exported through `src/lib/bus.ts`): the legacy-artifact migrator
`purgeLegacyArtifactsOnce`, the push engine `pushOutbox`, the pull engine
`pullServer` and the orchestrator `syncAll`.

Modelling conventions:
* AsyncStorage is projected onto a `Store` record holding the four logical
  keys the engine uses (`history:v1`, `outbox:v1`, `lastPulledAt:v1`,
  `SYNC_CLEANED_v1`) plus the set of deprecated legacy keys still present.
* ISO-8601 timestamp strings of the fixed format used by the code compare
  lexicographically exactly as the instants they denote, so timestamps are
  modelled as `Nat` (the epoch default `1970-01-01T00:00:00.000Z` becomes 0).
* External collaborators (the supabase auth session, the remote insert with
  its uniqueness constraint, the remote range query, the wall clock, and
  storage faults) are inputs: each engine takes an environment record
  describing the collaborator's behaviour during that call.
* JavaScript exceptions are modelled explicitly: a per-record throw inside
  `pushOutbox`'s loop is a `PushOutcome.thrown`; a throw outside the
  per-item try/catch (session fetch or storage I/O rejecting at the stage
  boundary, before any mutation) is a `Bool` flag in the orchestrator's
  environment.
-/

namespace SyncTs

/-- `type LocalScan`'s `codeType: 'qrcode' | 'barcode'`. -/
inductive CodeType where
  | qrcode
  | barcode
deriving DecidableEq, Repr

/-- The `LocalScan` record type of `lib/sync.ts`. `meta` is an opaque blob. -/
structure LocalScan where
  localId : String
  serverId : Option String := none
  userId : Option String := none
  tenantId : Option String := none
  createdAt : Nat
  codeType : CodeType
  payload : String
  clientRef : String
  meta : Option String := none
  synced : Bool
deriving DecidableEq, Repr

/-- The AsyncStorage state seen by the engine: the four logical keys plus
the deprecated keys (`PENDING_QUEUE`, `SYNC_LOCK`, `SYNC_IN_PROGRESS`,
`SYNC_QUARANTINE_LAST`) still present, which only the migrator touches. -/
structure Store where
  history : List LocalScan := []
  outbox : List LocalScan := []
  lastPulledAt : Option Nat := none
  legacyCleaned : Option String := none
  legacyArtifacts : List String := []
deriving DecidableEq, Repr

/-- JavaScript truthiness of an `AsyncStorage.getItem` result
(`string | null`): `null` and the empty string are falsy. -/
def jsTruthy : Option String → Bool
  | none => false
  | some s => !(s == "")

/-- `purgeLegacyArtifactsOnce`: `if (done) return;` then
`multiRemove(LEGACY_KEYS)` and `setItem(K_LEGACY_CLEANED, '1')`. -/
def purgeLegacyArtifactsOnce (s : Store) : Store :=
  if jsTruthy s.legacyCleaned then s
  else { s with legacyArtifacts := [], legacyCleaned := some "1" }

/-- Outcome of one iteration of `pushOutbox`'s loop body for a record, as
determined by the external collaborators: `ok` — the remote insert
succeeded; `dup` — the insert failed with code `23505` or a
`/duplicate key/i` message; `err` — the insert failed with any other
error object; `thrown` — the body threw (tenant lookup, insert call or
history write rejecting), landing in the per-item `catch`. -/
inductive PushOutcome where
  | ok
  | dup
  | err
  | thrown
deriving DecidableEq, Repr

/-- Records with these outcomes take the `failures.push(item)` path. -/
def pushFails : PushOutcome → Bool
  | .err => true
  | .thrown => true
  | .ok => false
  | .dup => false

/-- Collaborator behaviour during one `pushOutbox` call: the auth session's
user id (if a session exists) and the loop-body outcome for each record.
Tenant resolution via `ensureTenantId` only shapes the row sent to the
remote store, so it is folded into the outcome. -/
structure PushEnv where
  session : Option String := none
  outcome : LocalScan → PushOutcome

/-- Return value of `pushOutbox`; `failed` and `reason` are absent on the
early-return paths, as in the source. -/
structure PushResult where
  pushed : Nat
  failed : Option Nat := none
  reason : Option String := none
deriving DecidableEq, Repr

/-- The history-marking block of a successful iteration:
`hist.findIndex(h => h.localId === item.localId)`, then set
`synced = true` and `userId = userId` at the first match. -/
def markSynced (uid lid : String) : List LocalScan → List LocalScan
  | [] => []
  | h :: t =>
    if h.localId = lid then { h with synced := true, userId := some uid } :: t
    else h :: markSynced uid lid t

/-- The mutable state threaded through `pushOutbox`'s `for` loop. -/
structure PushLoopState where
  pushed : Nat
  failures : List LocalScan
  history : List LocalScan
deriving DecidableEq, Repr

/-- `pushOutbox`'s `for (const item of outbox)` loop. A failing record is
appended to `failures`; otherwise the history entry with the record's
`localId` is marked synced and `pushed` is incremented. -/
def pushLoop (outcome : LocalScan → PushOutcome) (uid : String) :
    List LocalScan → PushLoopState → PushLoopState
  | [], st => st
  | item :: rest, st =>
    if pushFails (outcome item) then
      pushLoop outcome uid rest { st with failures := st.failures ++ [item] }
    else
      pushLoop outcome uid rest
        { pushed := st.pushed + 1
          failures := st.failures
          history := markSynced uid item.localId st.history }

/-- `pushOutbox`: no-session early return; read outbox and `.reverse()` it
into FIFO order; empty early return; run the loop; persist
`failures.reverse()` as the new outbox. -/
def pushOutbox (env : PushEnv) (s : Store) : PushResult × Store :=
  match env.session with
  | none => ({ pushed := 0, reason := some "no-session" }, s)
  | some uid =>
    let fifo := s.outbox.reverse
    if fifo.isEmpty then ({ pushed := 0 }, s)
    else
      let st := pushLoop env.outcome uid fifo ⟨0, [], s.history⟩
      ({ pushed := st.pushed, failed := some st.failures.length },
        { s with outbox := st.failures.reverse, history := st.history })

/-- One row of the remote `scans` query result
(`id, user_id, tenant_id, created_at, type, value, meta`); `id` is the
row as a string, i.e. `String(row.id)`. -/
structure RemoteRow where
  id : String
  user_id : Option String := none
  tenant_id : Option String := none
  created_at : Nat
  type : Option CodeType := none
  value : String
  meta : Option String := none
deriving DecidableEq, Repr

/-- Collaborator behaviour during one `pullServer` call: session presence,
the remote range query as a function of the `since` watermark (an
`Except.error` is a transport/query error), and the wall clock read by
`nowIso()`. -/
structure PullEnv where
  session : Bool
  query : Nat → Except Unit (List RemoteRow)
  now : Nat

/-- Return value of `pullServer`. -/
structure PullResult where
  pulled : Nat
  reason : Option String := none
deriving DecidableEq, Repr

/-- The history entry `pullServer` constructs from a remote row. -/
def rowEntry (row : RemoteRow) : LocalScan :=
  { localId := "srv-" ++ row.id
    serverId := some row.id
    userId := row.user_id
    tenantId := row.tenant_id
    createdAt := row.created_at
    codeType := row.type.getD .barcode
    payload := row.value
    clientRef := "srv-" ++ row.id
    meta := row.meta
    synced := true }

/-- The `byServerId` set: `history.filter(h => h.serverId).map(h =>
h.serverId)` — the truthy `serverId`s already in history. -/
def byServerId (hist : List LocalScan) : List String :=
  (hist.filter (fun h => jsTruthy h.serverId)).filterMap (fun h => h.serverId)

/-- `pullServer`'s merge loop: skip rows whose id is in the pre-computed
`byServerId` set (the set is not extended inside the loop, as in the
source), append a new entry otherwise. -/
def pullLoop (seen : List String) :
    List RemoteRow → List LocalScan → Nat → List LocalScan × Nat
  | [], hist, added => (hist, added)
  | row :: rest, hist, added =>
    if row.id ∈ seen then pullLoop seen rest hist added
    else pullLoop seen rest (hist ++ [rowEntry row]) (added + 1)

/-- `history.sort((a, b) => (a.createdAt < b.createdAt ? 1 : -1))`:
descending by `createdAt`. -/
def sortDescByCreatedAt (hist : List LocalScan) : List LocalScan :=
  hist.mergeSort (fun a b => decide (b.createdAt ≤ a.createdAt))

/-- `pullServer`: no-session early return; read the watermark (epoch
default); run the remote query; on error return `pull-error` with the
store untouched; otherwise merge, re-sort descending, persist history and
set the watermark to the current wall clock. -/
def pullServer (env : PullEnv) (s : Store) : PullResult × Store :=
  if !env.session then ({ pulled := 0, reason := some "no-session" }, s)
  else
    let since := s.lastPulledAt.getD 0
    match env.query since with
    | .error _ => ({ pulled := 0, reason := some "pull-error" }, s)
    | .ok data =>
      let seen := byServerId s.history
      let merged := pullLoop seen data s.history 0
      let hist := sortDescByCreatedAt merged.1
      ({ pulled := merged.2 }, { s with history := hist, lastPulledAt := some env.now })

/-- The three stages `syncAll` can invoke, recorded in invocation order. -/
inductive StageTag where
  | migrator
  | push
  | pull
deriving DecidableEq, Repr

/-- `syncAll`'s return value; `error` is absent (false) except in the
`catch` branch. -/
structure SyncResult where
  push : PushResult
  pull : PullResult
  error : Bool := false
deriving DecidableEq, Repr

/-- Collaborator behaviour during one `syncAll` call. `migratorThrows` /
`pushThrows` / `pullThrows` model a storage or session-fetch call at that
stage's boundary rejecting before the stage mutates anything. -/
structure SyncEnv where
  migratorThrows : Bool := false
  pushThrows : Bool := false
  pushEnv : PushEnv
  pullThrows : Bool := false
  pullEnv : PullEnv

/-- What a `syncAll` call produced: `result = none` means the call itself
rejected (an exception escaped to the caller); `ran` records which stages
were invoked, in order. -/
structure SyncOutput where
  result : Option SyncResult
  store : Store
  ran : List StageTag
deriving Repr

/-- The fixed object returned by `syncAll`'s `catch` branch:
`{ push: { pushed: 0 }, pull: { pulled: 0 }, error: true }`. -/
def catchResult : SyncResult :=
  { push := { pushed := 0 }, pull := { pulled := 0 }, error := true }

/-- `syncAll`: `await purgeLegacyArtifactsOnce()` runs before the
`try` block, so an exception there propagates; inside the `try`,
`pushOutbox` then `pullServer` run, and any exception from either is
swallowed into `catchResult`. An exception in `pushOutbox` aborts the
`try` body, so `pullServer` is not invoked. -/
def syncAll (env : SyncEnv) (s : Store) : SyncOutput :=
  if env.migratorThrows then
    { result := none, store := s, ran := [.migrator] }
  else
    let s1 := purgeLegacyArtifactsOnce s
    if env.pushThrows then
      { result := some catchResult, store := s1, ran := [.migrator, .push] }
    else
      let pushed := pushOutbox env.pushEnv s1
      if env.pullThrows then
        { result := some catchResult, store := pushed.2, ran := [.migrator, .push, .pull] }
      else
        let pulled := pullServer env.pullEnv pushed.2
        { result := some { push := pushed.1, pull := pulled.1 }, store := pulled.2
          ran := [.migrator, .push, .pull] }

end SyncTs

namespace SyncTs

/-! ### Helper lemmas about the push loop -/

theorem pushLoop_failures (o : LocalScan → PushOutcome) (uid : String) :
    ∀ (l : List LocalScan) (st : PushLoopState),
      (pushLoop o uid l st).failures = st.failures ++ l.filter (fun r => pushFails (o r))
  | [], st => by simp [pushLoop]
  | item :: rest, st => by
    by_cases h : pushFails (o item) = true
    · simp [pushLoop, h, pushLoop_failures o uid rest]
    · simp [pushLoop, h, pushLoop_failures o uid rest]

theorem pushLoop_pushed (o : LocalScan → PushOutcome) (uid : String) :
    ∀ (l : List LocalScan) (st : PushLoopState),
      (pushLoop o uid l st).pushed = st.pushed + (l.filter (fun r => !pushFails (o r))).length
  | [], st => by simp [pushLoop]
  | item :: rest, st => by
    by_cases h : pushFails (o item) = true
    · simp [pushLoop, h, pushLoop_pushed o uid rest]
    · simp [pushLoop, h, pushLoop_pushed o uid rest]
      omega

theorem markSynced_map_serverId (uid lid : String) :
    ∀ hist : List LocalScan,
      (markSynced uid lid hist).map (fun h => h.serverId) = hist.map (fun h => h.serverId)
  | [] => rfl
  | h :: t => by
    by_cases hh : h.localId = lid
    · simp [markSynced, hh]
    · simp [markSynced, hh, markSynced_map_serverId uid lid t]

theorem pushLoop_map_serverId (o : LocalScan → PushOutcome) (uid : String) :
    ∀ (l : List LocalScan) (st : PushLoopState),
      (pushLoop o uid l st).history.map (fun h => h.serverId) =
        st.history.map (fun h => h.serverId)
  | [], st => by simp [pushLoop]
  | item :: rest, st => by
    by_cases h : pushFails (o item) = true
    · simp [pushLoop, h, pushLoop_map_serverId o uid rest]
    · simp [pushLoop, h, pushLoop_map_serverId o uid rest, markSynced_map_serverId]

/-- The non-null `serverId`s of a history list, in order. -/
def serverIdsOf (hist : List LocalScan) : List String :=
  hist.filterMap (fun h => h.serverId)

theorem serverIdsOf_eq_of_map_eq {l₁ l₂ : List LocalScan}
    (h : l₁.map (fun h => h.serverId) = l₂.map (fun h => h.serverId)) :
    serverIdsOf l₁ = serverIdsOf l₂ := by
  have : l₁.filterMap (fun h => h.serverId) = l₂.filterMap (fun h => h.serverId) := by
    have h₁ : serverIdsOf l₁ = (l₁.map (fun h => h.serverId)).filterMap id := by
      simp [serverIdsOf, List.filterMap_map]
    have h₂ : serverIdsOf l₂ = (l₂.map (fun h => h.serverId)).filterMap id := by
      simp [serverIdsOf, List.filterMap_map]
    simpa [serverIdsOf, h] using h₁.trans (by rw [h]; exact h₂.symm)
  exact this

/-! ### Helper lemmas about the pull loop -/

theorem pullLoop_spec (seen : List String) :
    ∀ (rows : List RemoteRow) (hist : List LocalScan) (added : Nat),
      pullLoop seen rows hist added =
        (hist ++ ((rows.filter (fun row => !decide (row.id ∈ seen))).map rowEntry),
          added + (rows.filter (fun row => !decide (row.id ∈ seen))).length)
  | [], hist, added => by simp [pullLoop]
  | row :: rest, hist, added => by
    by_cases h : row.id ∈ seen
    · simp [pullLoop, h, pullLoop_spec seen rest]
    · simp [pullLoop, h, pullLoop_spec seen rest]
      omega

end SyncTs

namespace SyncTs

theorem length_filter_split (p : α → Bool) : ∀ l : List α,
    (l.filter (fun a => !p a)).length + (l.filter p).length = l.length
  | [] => rfl
  | a :: t => by
    have ih := length_filter_split p t
    by_cases h : p a = true <;> simp [h] <;> omega

/-! ### Example fixtures for concrete witnesses -/

/-- A locally created, not-yet-pushed scan. -/
def exScanA : LocalScan :=
  { localId := "l1", createdAt := 5, codeType := .qrcode, payload := "X"
    clientRef := "a1", synced := false }

/-- A second locally created scan, newer than `exScanA`. -/
def exScanB : LocalScan :=
  { localId := "l2", createdAt := 7, codeType := .barcode, payload := "Y"
    clientRef := "a2", synced := false }

/-- A push environment with a session where `exScanA`'s insert fails with a
retryable error and every other insert succeeds. -/
def exPushEnv : PushEnv :=
  { session := some "u1", outcome := fun r => if r.localId = "l1" then .err else .ok }

/-- A store whose outbox holds both example scans (stored newest-first). -/
def exStore : Store := { history := [exScanB, exScanA], outbox := [exScanB, exScanA] }

/-- C2: with an authenticated session, one `pushOutbox` call leaves in the
Outbox exactly the records whose remote outcome failed (retryable error or
throw), each the unchanged original record, in the original stored order —
equivalently the persisted outbox is the `filter` of the old one by
failure; all succeeded-or-duplicate records are removed. -/
theorem pushOutbox_retains_exactly_failures (env : PushEnv) (uid : String) (s : Store)
    (h : env.session = some uid) :
    ((pushOutbox env s).2).outbox = s.outbox.filter (fun r => pushFails (env.outcome r)) := by
  simp only [pushOutbox, h]
  by_cases he : s.outbox.reverse.isEmpty = true
  · have hnil : s.outbox = [] := by
      have := List.isEmpty_iff.mp he
      simpa using this
    simp [he, hnil]
  · simp only [he, if_false, Bool.false_eq_true]
    rw [pushLoop_failures]
    simp [List.filter_reverse]

/-- Witness for C2 at a concrete two-record outbox in which exactly one
record fails. -/
theorem pushOutbox_retains_exactly_failures_witness :
    exPushEnv.session = some "u1" ∧
      ((pushOutbox exPushEnv exStore).2).outbox =
        exStore.outbox.filter (fun r => pushFails (exPushEnv.outcome r)) :=
  ⟨rfl, pushOutbox_retains_exactly_failures exPushEnv "u1" exStore rfl⟩

/-- C9: with an authenticated session, every record that was in the Outbox
when `pushOutbox` started is counted in exactly one of the two result
counters: `pushed` plus the `failed` count (0 when the field is absent)
equals the starting outbox length. -/
theorem pushOutbox_counter_conservation (env : PushEnv) (uid : String) (s : Store)
    (h : env.session = some uid) :
    (pushOutbox env s).1.pushed + ((pushOutbox env s).1.failed).getD 0 = s.outbox.length := by
  simp only [pushOutbox, h]
  by_cases he : s.outbox.reverse.isEmpty = true
  · have hnil : s.outbox = [] := by
      have := List.isEmpty_iff.mp he
      simpa using this
    simp [he, hnil]
  · simp only [he, if_false, Bool.false_eq_true]
    rw [pushLoop_pushed, pushLoop_failures]
    simpa using length_filter_split (fun r => pushFails (env.outcome r)) s.outbox.reverse

/-- Witness for C9 at a concrete two-record outbox: `1 + 1 = 2`. -/
theorem pushOutbox_counter_conservation_witness :
    exPushEnv.session = some "u1" ∧
      (pushOutbox exPushEnv exStore).1.pushed +
        ((pushOutbox exPushEnv exStore).1.failed).getD 0 = exStore.outbox.length :=
  ⟨rfl, pushOutbox_counter_conservation exPushEnv "u1" exStore rfl⟩

end SyncTs

namespace SyncTs

/-- The same push environment with every duplicate-key rejection replaced
by a plain success, for stating that the two are indistinguishable. -/
def dupAsOk (env : PushEnv) : PushEnv :=
  { env with outcome := fun r => if env.outcome r = .dup then .ok else env.outcome r }

theorem pushLoop_dupAsOk (o : LocalScan → PushOutcome) (uid : String) :
    ∀ (l : List LocalScan) (st : PushLoopState),
      pushLoop (fun r => if o r = .dup then .ok else o r) uid l st = pushLoop o uid l st
  | [], _ => rfl
  | item :: rest, st => by
    have hfa : pushFails (if o item = .dup then .ok else o item) = pushFails (o item) := by
      cases h : o item <;> simp [pushFails]
    by_cases h : pushFails (o item) = true <;>
      simp [pushLoop, hfa, h, pushLoop_dupAsOk o uid rest]

/-- C3: a remote insert rejected as a duplicate of the idempotency key is
treated exactly like a success: `pushOutbox` under an environment where
every duplicate rejection is replaced by plain success returns the same
result and the same store — so a duplicate is counted in `pushed`, marks
its History entry synced and is removed from the Outbox; concretely, one
Outbox entry whose token already exists remotely yields `pushed = 1`,
`failed = 0`, no error reason, an empty Outbox and a synced History
entry. -/
theorem pushOutbox_duplicate_is_success :
    (∀ (env : PushEnv) (s : Store), pushOutbox (dupAsOk env) s = pushOutbox env s) ∧
      pushOutbox { session := some "u1", outcome := fun _ => .dup }
          { history := [exScanA], outbox := [exScanA] } =
        ({ pushed := 1, failed := some 0 },
          { history := [{ exScanA with synced := true, userId := some "u1" }]
            outbox := [] }) := by
  constructor
  · intro env s
    have hs : (dupAsOk env).session = env.session := rfl
    cases henv : env.session with
    | none => simp [pushOutbox, hs, henv]
    | some uid => simp [pushOutbox, hs, henv, dupAsOk, pushLoop_dupAsOk]
  · decide

/-- The History rewrite a confirmed push applies to a matching entry:
`synced = true` and `userId` attached, all other fields untouched. -/
def pushMarked (uid : String) (b : LocalScan) : LocalScan :=
  { b with synced := true, userId := some uid }

/-- Frame relation for `pushOutbox`'s History effect: every entry of
`after` is the corresponding entry of `before`, either unchanged or — only
when its `localId` belongs to `ids`, the localIds of the records confirmed
by this call — rewritten by `pushMarked`. -/
def HistFrame (uid : String) (ids : List String) (before after : List LocalScan) : Prop :=
  List.Forall₂ (fun b a => a = b ∨ (b.localId ∈ ids ∧ a = pushMarked uid b)) before after

theorem histFrame_refl (uid : String) (ids : List String) (l : List LocalScan) :
    HistFrame uid ids l l :=
  (List.forall₂_same).mpr (fun _ _ => Or.inl rfl)

theorem markSynced_frame (uid lid : String) (ids : List String) (hmem : lid ∈ ids) :
    ∀ hist : List LocalScan, HistFrame uid ids hist (markSynced uid lid hist)
  | [] => List.Forall₂.nil
  | h :: t => by
    by_cases hh : h.localId = lid
    · simp only [markSynced]
      rw [if_pos hh]
      exact List.Forall₂.cons (Or.inr ⟨hh.symm ▸ hmem, rfl⟩) (histFrame_refl uid ids t)
    · simp only [markSynced]
      rw [if_neg hh]
      exact List.Forall₂.cons (Or.inl rfl) (markSynced_frame uid lid ids hmem t)

theorem histFrame_trans {uid : String} {ids : List String} :
    ∀ {l₁ l₂ l₃ : List LocalScan},
      HistFrame uid ids l₁ l₂ → HistFrame uid ids l₂ l₃ → HistFrame uid ids l₁ l₃ := by
  intro l₁ l₂ l₃ h12
  induction h12 generalizing l₃ with
  | nil =>
    intro h23
    cases h23
    exact List.Forall₂.nil
  | cons hr _ ih =>
    intro h23
    cases h23 with
    | cons hr2 hrest2 =>
      refine List.Forall₂.cons ?_ (ih hrest2)
      rcases hr with rfl | ⟨hmem, rfl⟩
      · exact hr2
      · rcases hr2 with rfl | ⟨_, rfl⟩
        · exact Or.inr ⟨hmem, rfl⟩
        · exact Or.inr ⟨hmem, rfl⟩

theorem pushLoop_frame (o : LocalScan → PushOutcome) (uid : String) (ids : List String) :
    ∀ (l : List LocalScan) (st : PushLoopState),
      (∀ item ∈ l, pushFails (o item) = false → item.localId ∈ ids) →
      HistFrame uid ids st.history (pushLoop o uid l st).history
  | [], st, _ => by
    simp only [pushLoop]
    exact histFrame_refl uid ids st.history
  | item :: rest, st, hmem => by
    have hrest : ∀ x ∈ rest, pushFails (o x) = false → x.localId ∈ ids :=
      fun x hx => hmem x (List.mem_cons_of_mem item hx)
    by_cases h : pushFails (o item) = true
    · simpa [pushLoop, h] using
        pushLoop_frame o uid ids rest { st with failures := st.failures ++ [item] } hrest
    · have hid : item.localId ∈ ids :=
        hmem item (List.mem_cons_self item rest) (by simpa using h)
      have step : HistFrame uid ids st.history (markSynced uid item.localId st.history) :=
        markSynced_frame uid item.localId ids hid st.history
      have tail := pushLoop_frame o uid ids rest
        { pushed := st.pushed + 1, failures := st.failures
          history := markSynced uid item.localId st.history } hrest
      simpa [pushLoop, h] using histFrame_trans step tail

/-- C10: with an authenticated session, `pushOutbox`'s only History
mutation is `pushMarked` (set `synced`, attach `userId`) on entries whose
`localId` matches a record confirmed in this call; in particular the
`serverId` column of History is untouched, entry for entry. -/
theorem pushOutbox_history_frame (env : PushEnv) (uid : String) (s : Store)
    (h : env.session = some uid) :
    HistFrame uid
        ((s.outbox.reverse.filter (fun r => !pushFails (env.outcome r))).map
          (fun r => r.localId))
        s.history ((pushOutbox env s).2.history) ∧
      ((pushOutbox env s).2.history).map (fun e => e.serverId) =
        s.history.map (fun e => e.serverId) := by
  simp only [pushOutbox, h]
  by_cases he : s.outbox.reverse.isEmpty = true
  · rw [if_pos he]
    exact ⟨histFrame_refl uid _ s.history, rfl⟩
  · rw [if_neg he]
    refine ⟨?_, pushLoop_map_serverId env.outcome uid s.outbox.reverse ⟨0, [], s.history⟩⟩
    refine pushLoop_frame env.outcome uid _ s.outbox.reverse ⟨0, [], s.history⟩ ?_
    intro item hi hf
    have hb : (!pushFails (env.outcome item)) = true := by simp [hf]
    have hmemf : item ∈ s.outbox.reverse.filter (fun r => !pushFails (env.outcome r)) :=
      List.mem_filter.mpr ⟨hi, hb⟩
    exact List.mem_map_of_mem (fun r => r.localId) hmemf

/-- Witness for C10 at a concrete store where one of two records is
confirmed. -/
theorem pushOutbox_history_frame_witness :
    exPushEnv.session = some "u1" ∧
      (HistFrame "u1"
          ((exStore.outbox.reverse.filter
            (fun r => !pushFails (exPushEnv.outcome r))).map (fun r => r.localId))
          exStore.history ((pushOutbox exPushEnv exStore).2.history) ∧
        ((pushOutbox exPushEnv exStore).2.history).map (fun e => e.serverId) =
          exStore.history.map (fun e => e.serverId)) :=
  ⟨rfl, pushOutbox_history_frame exPushEnv "u1" exStore rfl⟩

end SyncTs

namespace SyncTs

/-! ### Pull-side helper lemmas -/

theorem serverIdsOf_append (l₁ l₂ : List LocalScan) :
    serverIdsOf (l₁ ++ l₂) = serverIdsOf l₁ ++ serverIdsOf l₂ :=
  List.filterMap_append l₁ l₂ _

theorem serverIdsOf_rowEntries : ∀ rows : List RemoteRow,
    serverIdsOf (rows.map rowEntry) = rows.map (fun r => r.id)
  | [] => rfl
  | row :: rest => by
    have ih := serverIdsOf_rowEntries rest
    simp only [List.map_cons, serverIdsOf, List.filterMap_cons] at ih ⊢
    rw [show (rowEntry row).serverId = some row.id from rfl]
    simpa using ih

theorem mem_byServerId_of_mem_serverIdsOf {hist : List LocalScan} {sid : String}
    (hmem : sid ∈ serverIdsOf hist) (hne : sid ≠ "") : sid ∈ byServerId hist := by
  rcases List.mem_filterMap.mp hmem with ⟨e, he, hse⟩
  refine List.mem_filterMap.mpr ⟨e, ?_, hse⟩
  refine List.mem_filter.mpr ⟨he, ?_⟩
  rw [hse]
  simpa [jsTruthy] using hne

theorem sortDescByCreatedAt_perm (l : List LocalScan) :
    List.Perm (sortDescByCreatedAt l) l :=
  List.mergeSort_perm l _

/-- `pushOutbox` never writes `serverId`: the sequence of `serverId`s in
History is untouched. -/
theorem pushOutbox_serverIdsOf (env : PushEnv) (s : Store) :
    serverIdsOf ((pushOutbox env s).2.history) = serverIdsOf s.history := by
  cases henv : env.session with
  | none => simp [pushOutbox, henv]
  | some uid =>
    simp only [pushOutbox, henv]
    by_cases he : s.outbox.reverse.isEmpty = true
    · rw [if_pos he]
    · rw [if_neg he]
      exact serverIdsOf_eq_of_map_eq
        (pushLoop_map_serverId env.outcome uid s.outbox.reverse ⟨0, [], s.history⟩)

theorem pullServer_preserves_nodup (env : PullEnv) (s : Store) (data : List RemoteRow)
    (hq : env.query (s.lastPulledAt.getD 0) = Except.ok data)
    (hids : (data.map (fun r => r.id)).Nodup)
    (hne : data.all (fun row => !(row.id == "")) = true)
    (hnd : (serverIdsOf s.history).Nodup) :
    (serverIdsOf ((pullServer env s).2.history)).Nodup := by
  cases hs : env.session with
  | false => simpa [pullServer, hs] using hnd
  | true =>
    simp only [pullServer, hs, hq, Bool.not_true, if_false]
    rw [pullLoop_spec]
    have hperm :
        List.Perm
          (serverIdsOf (sortDescByCreatedAt
            (s.history ++
              (data.filter
                (fun row => !decide (row.id ∈ byServerId s.history))).map rowEntry)))
          (serverIdsOf
            (s.history ++
              (data.filter
                (fun row => !decide (row.id ∈ byServerId s.history))).map rowEntry)) :=
      (sortDescByCreatedAt_perm _).filterMap _
    refine hperm.nodup_iff.mpr ?_
    rw [serverIdsOf_append, serverIdsOf_rowEntries]
    rw [List.nodup_append]
    refine ⟨hnd, ?_, ?_⟩
    · exact ((List.filter_sublist data).map (fun r => r.id)).nodup hids
    · intro sid hsid hsid2
      rcases List.mem_map.mp hsid2 with ⟨row, hrowmem, hrowid⟩
      rcases List.mem_filter.mp hrowmem with ⟨hrowdata, hrowskip⟩
      have hrowne : row.id ≠ "" := by
        have := List.all_eq_true.mp hne row hrowdata
        simpa using this
      have : row.id ∈ byServerId s.history :=
        mem_byServerId_of_mem_serverIdsOf (hrowid ▸ hsid) hrowne
      simp [this] at hrowskip

/-- C4: no two History entries ever share the same non-null `serverId`:
the invariant holds for the initial (empty) History, is preserved by every
`pushOutbox` call (which never writes `serverId`), and is preserved by
every `pullServer` call — under the remote store's key contract that a
query result carries pairwise-distinct, non-empty row ids — including the
no-session and query-error outcomes, which leave History unchanged.
Pulling the same remote window twice therefore never inserts two entries
with the same `serverId`. -/
theorem history_serverIds_nodup_invariant :
    (serverIdsOf ([] : List LocalScan)).Nodup ∧
      (∀ (env : PushEnv) (s : Store), (serverIdsOf s.history).Nodup →
        (serverIdsOf ((pushOutbox env s).2.history)).Nodup) ∧
      (∀ (env : PullEnv) (s : Store) (data : List RemoteRow),
        env.query (s.lastPulledAt.getD 0) = Except.ok data →
        (data.map (fun r => r.id)).Nodup →
        data.all (fun row => !(row.id == "")) = true →
        (serverIdsOf s.history).Nodup →
        (serverIdsOf ((pullServer env s).2.history)).Nodup) ∧
      (∀ (env : PullEnv) (s : Store),
        env.query (s.lastPulledAt.getD 0) = Except.error () →
        (pullServer env s).2.history = s.history) ∧
      (∀ (env : PullEnv) (s : Store), env.session = false →
        (pullServer env s).2.history = s.history) := by
  refine ⟨List.nodup_nil, ?_, ?_, ?_, ?_⟩
  · intro env s hnd
    rw [pushOutbox_serverIdsOf]
    exact hnd
  · intro env s data hq hids hne hnd
    exact pullServer_preserves_nodup env s data hq hids hne hnd
  · intro env s hq
    cases hs : env.session with
    | false => simp [pullServer, hs]
    | true => simp [pullServer, hs, hq]
  · intro env s hs
    simp [pullServer, hs]

/-- A remote row used by concrete witnesses. -/
def exRow : RemoteRow := { id := "s9", created_at := 10, value := "Z" }

/-- A pull environment with a session whose query returns `exRow`. -/
def exPullEnv : PullEnv := { session := true, query := fun _ => .ok [exRow], now := 42 }

/-- A store whose history holds one local, unpushed scan. -/
def exStoreP : Store := { history := [exScanA] }

/-- Witness for C4 at a concrete pull of one remote row into a history
with one local entry. -/
theorem history_serverIds_nodup_invariant_witness :
    (exPullEnv.query (exStoreP.lastPulledAt.getD 0) = Except.ok [exRow] ∧
        ([exRow].map (fun r => r.id)).Nodup ∧
        [exRow].all (fun row => !(row.id == "")) = true ∧
        (serverIdsOf exStoreP.history).Nodup) ∧
      (serverIdsOf ((pullServer exPullEnv exStoreP).2.history)).Nodup :=
  ⟨⟨rfl, by decide, by decide, by decide⟩,
    history_serverIds_nodup_invariant.2.2.1 exPullEnv exStoreP [exRow] rfl
      (by decide) (by decide) (by decide)⟩

/-- C5: a single `pullServer` call — successful, failed or without a
session — leaves the stored Pull Watermark greater than or equal to its
previous value, provided the wall clock read by the call is not earlier
than the stored watermark (which holds for a monotone clock, since the
stored value is either unset or a past clock reading); hence across every
sequence of calls the watermark never decreases. -/
theorem pullServer_watermark_monotone (env : PullEnv) (s : Store)
    (h : s.lastPulledAt.getD 0 ≤ env.now) :
    s.lastPulledAt.getD 0 ≤ ((pullServer env s).2.lastPulledAt).getD 0 := by
  cases hs : env.session with
  | false => simp [pullServer, hs]
  | true =>
    cases hq : env.query (s.lastPulledAt.getD 0) with
    | error e => simp [pullServer, hs, hq]
    | ok data => simpa [pullServer, hs, hq] using h

/-- Witness for C5 at a concrete store with watermark 7 and clock 42. -/
theorem pullServer_watermark_monotone_witness :
    ({ exStoreP with lastPulledAt := some 7 } : Store).lastPulledAt.getD 0 ≤ exPullEnv.now ∧
      ({ exStoreP with lastPulledAt := some 7 } : Store).lastPulledAt.getD 0 ≤
        ((pullServer exPullEnv { exStoreP with lastPulledAt := some 7 }).2.lastPulledAt).getD 0 :=
  ⟨by decide, pullServer_watermark_monotone exPullEnv _ (by decide)⟩

/-- C6: when the remote query fails, `pullServer` returns
`{pulled: 0, reason: "pull-error"}` and the store — watermark and History
included — is exactly the pre-call store. -/
theorem pullServer_error_is_noop (env : PullEnv) (s : Store)
    (hs : env.session = true)
    (hq : env.query (s.lastPulledAt.getD 0) = Except.error ()) :
    pullServer env s = ({ pulled := 0, reason := some "pull-error" }, s) := by
  simp [pullServer, hs, hq]

/-- A pull environment whose query always fails. -/
def exPullEnvErr : PullEnv := { session := true, query := fun _ => .error (), now := 99 }

/-- Witness for C6 at a concrete failing query. -/
theorem pullServer_error_is_noop_witness :
    exPullEnvErr.session = true ∧
      exPullEnvErr.query (exStoreP.lastPulledAt.getD 0) = Except.error () ∧
      pullServer exPullEnvErr exStoreP = ({ pulled := 0, reason := some "pull-error" }, exStoreP) :=
  ⟨rfl, rfl, pullServer_error_is_noop exPullEnvErr exStoreP rfl rfl⟩

end SyncTs

namespace SyncTs

/-- C8: the migrator is exactly-once: a second call after any call is the
identity (so after a successful run every further call performs zero
deletions and changes nothing), every call leaves the cleaned flag truthy,
and a first run from an uncleaned state empties the legacy keys and sets
the flag to the string `"1"`. -/
theorem purgeLegacyArtifactsOnce_exactly_once (s : Store) :
    purgeLegacyArtifactsOnce (purgeLegacyArtifactsOnce s) = purgeLegacyArtifactsOnce s ∧
      jsTruthy (purgeLegacyArtifactsOnce s).legacyCleaned = true ∧
      (jsTruthy s.legacyCleaned = false →
        (purgeLegacyArtifactsOnce s).legacyArtifacts = [] ∧
          (purgeLegacyArtifactsOnce s).legacyCleaned = some "1") := by
  by_cases h : jsTruthy s.legacyCleaned = true
  · simp [purgeLegacyArtifactsOnce, h]
  · have h' : jsTruthy s.legacyCleaned = false := by simpa using h
    have hstep : purgeLegacyArtifactsOnce s =
        { s with legacyArtifacts := [], legacyCleaned := some "1" } := by
      simp [purgeLegacyArtifactsOnce, h']
    have h1 : jsTruthy (some "1") = true := by decide
    have htruthy : jsTruthy (purgeLegacyArtifactsOnce s).legacyCleaned = true := by
      rw [hstep]
      exact h1
    refine ⟨?_, htruthy, fun _ => ⟨by rw [hstep], by rw [hstep]⟩⟩
    rw [hstep]
    simp [purgeLegacyArtifactsOnce, h1]

/-- A store still holding legacy artifacts, with the cleaned flag unset. -/
def exStoreLegacy : Store := { legacyArtifacts := ["PENDING_QUEUE", "SYNC_LOCK"] }

/-- Witness for C8 at a concrete uncleaned store. -/
theorem purgeLegacyArtifactsOnce_exactly_once_witness :
    jsTruthy exStoreLegacy.legacyCleaned = false ∧
      purgeLegacyArtifactsOnce (purgeLegacyArtifactsOnce exStoreLegacy) =
        purgeLegacyArtifactsOnce exStoreLegacy ∧
      (purgeLegacyArtifactsOnce exStoreLegacy).legacyArtifacts = [] ∧
      (purgeLegacyArtifactsOnce exStoreLegacy).legacyCleaned = some "1" :=
  ⟨by decide, (purgeLegacyArtifactsOnce_exactly_once exStoreLegacy).1,
    (purgeLegacyArtifactsOnce_exactly_once exStoreLegacy).2.2 (by decide)⟩

/-- Counterexample to C1 as stated: when the migrator stage throws (its
first storage read rejecting), `syncAll` does not return a result value —
the exception escapes, because `purgeLegacyArtifactsOnce` is awaited
before the `try` block. -/
theorem syncAll_raises_on_migrator_throw :
    (syncAll { migratorThrows := true, pushEnv := exPushEnv, pullEnv := exPullEnv }
        exStore).result = none := rfl

/-- C1 (amended): provided the migrator stage does not throw, `syncAll`
returns a result value for every store state and every push/pull outcome —
a throw in either of those stages is converted into the fixed result with
the `error` flag set. -/
theorem syncAll_total_unless_migrator_throws (env : SyncEnv) (s : Store)
    (h : env.migratorThrows = false) :
    ((syncAll env s).result).isSome = true ∧
      ((env.pushThrows = true ∨ env.pullThrows = true) →
        (syncAll env s).result = some catchResult) := by
  simp only [syncAll, h, Bool.false_eq_true, if_false]
  by_cases hp : env.pushThrows = true
  · simp [hp]
  · have hp' : env.pushThrows = false := by simpa using hp
    by_cases hl : env.pullThrows = true
    · simp [hp', hl]
    · have hl' : env.pullThrows = false := by simpa using hl
      simp [hp', hl']

/-- Witness for C1's amended theorem: a push-stage throw still yields a
result (with the error flag). -/
theorem syncAll_total_unless_migrator_throws_witness :
    ({ pushThrows := true, pushEnv := exPushEnv, pullEnv := exPullEnv } : SyncEnv).migratorThrows
        = false ∧
      ((syncAll { pushThrows := true, pushEnv := exPushEnv, pullEnv := exPullEnv }
          exStore).result).isSome = true :=
  ⟨rfl,
    (syncAll_total_unless_migrator_throws
      { pushThrows := true, pushEnv := exPushEnv, pullEnv := exPullEnv } exStore rfl).1⟩

/-- Counterexample to C7 as stated: when `pushOutbox` throws, the `catch`
takes over and `pullServer` is not attempted. -/
theorem syncAll_pull_skipped_when_push_throws :
    StageTag.pull ∉
      (syncAll { pushThrows := true, pushEnv := exPushEnv, pullEnv := exPullEnv }
        exStore).ran := by
  decide

/-- C7 (amended): in every `syncAll` invocation in which the push stage
does not throw (whatever result it returns — failures included — and
however the pull stage then behaves), `pullServer` is attempted after
`pushOutbox`; a push-stage throw, however, aborts the `try` body before
the pull. The migrator must also not throw, else no later stage runs. -/
theorem syncAll_pull_attempted_unless_push_throws (env : SyncEnv) (s : Store)
    (hm : env.migratorThrows = false) (hp : env.pushThrows = false) :
    StageTag.pull ∈ (syncAll env s).ran := by
  simp only [syncAll, hm, hp, Bool.false_eq_true, if_false]
  by_cases hl : env.pullThrows = true <;> simp [hl]

/-- Witness for C7's amended theorem at a concrete failing-but-not-throwing
push. -/
theorem syncAll_pull_attempted_unless_push_throws_witness :
    ({ pushEnv := exPushEnv, pullEnv := exPullEnv } : SyncEnv).migratorThrows = false ∧
      ({ pushEnv := exPushEnv, pullEnv := exPullEnv } : SyncEnv).pushThrows = false ∧
      StageTag.pull ∈
        (syncAll { pushEnv := exPushEnv, pullEnv := exPullEnv } exStore).ran :=
  ⟨rfl, rfl,
    syncAll_pull_attempted_unless_push_throws
      { pushEnv := exPushEnv, pullEnv := exPullEnv } exStore rfl rfl⟩

end SyncTs
